import Mathlib

/-!
Shallow embedding of the document validation pipeline of
src/shared-libs/transitions/src/lib/validation.js.

External collaborators (the pupil grammar engine, the datastore views,
moment, the localization layer) are modelled as function parameters or
as fields of an environment record; everything else is translated
directly from the JavaScript source.  Association lists play the role
of JavaScript objects (insertion order preserved, updates in place).
-/

/-- One sub-entity of a parsed pupil rule: a function-style clause with
its name and ordered argument list (pupil parser output shape). -/
structure SubEntity where
  funcName : String
  funcArgs : List String
deriving DecidableEq, Repr

/-- One entity of a parsed pupil rule; only its sub list matters to the
rewriter. -/
structure Entity where
  sub : List SubEntity
deriving DecidableEq, Repr

/-- A declared validation: mirrors the ValidationSpec objects of the
source (property, rule, message or translation key, and the fields the
rewriter fills in: funcName, funcArgs, field). -/
structure ValidationSpec where
  property : String
  rule : String
  message : Option String := none
  translation_key : Option String := none
  funcName : Option String := none
  funcArgs : List String := []
  field : Option String := none
deriving DecidableEq, Repr

/-- A stored document as seen by the uniqueness checks: its errors list
(absent modelled as the empty list) and its reported_date timestamp. -/
structure DocRec where
  errors : List String := []
  reported_date : Int := 0
deriving DecidableEq, Repr

/-- The datastore interface consumed by _exists: the
medic-client/reports_by_freetext view (queryRows, with queryErr
injecting per-key failures) and allDocs (allDocsErr injecting failure,
getDoc resolving each id to its document). -/
structure Datastore where
  queryRows : String → List String
  queryErr : String → Option String
  allDocsErr : Option String
  getDoc : String → DocRec

/-- Ambient facts the validators read from the clock and from moment:
the current time in ms, the current calendar year, and the duration
parser (moment.duration applied to a "N unit" string, in ms). -/
structure Env where
  ds : Datastore
  now : Int
  currentYear : Nat
  parseDur : String → Int

/-- The flattened attribute map handed to the validators: the document
id plus the merged key/value pairs (JavaScript object as assoc list). -/
structure AttrMap where
  docId : String
  fields : List (String × String)

/-- Attribute lookup: doc[field]; none models an absent key. -/
def AttrMap.get (a : AttrMap) (k : String) : Option String :=
  (a.fields.find? (fun p => p.1 == k)).map (fun p => p.2)

/-- A document before flattening: id, top-level attributes, and the
fields sub-map that _.extend merges over them. -/
structure MDoc where
  docId : String
  attrs : List (String × String) := []
  fields : List (String × String) := []

/-- One emitted error descriptor: code "invalid_" ++ property and the
(possibly absent) localized message. -/
structure VError where
  code : String
  message : Option String
deriving DecidableEq, Repr

/-- The ignores argument of validate/extractErrors: absent, a single
name, or a list of names (JavaScript allows all three). -/
inductive IgnoresArg where
  | omitted
  | single (s : String)
  | list (l : List String)
deriving DecidableEq, Repr

/-- The value the final callback receives: a parse-error string list, a
sync-evaluation error string list, or the field-level descriptors. -/
inductive ValidateOutcome where
  | parseErrs (errs : List String)
  | evalErr (errs : List String)
  | fieldErrs (errs : List VError)
deriving DecidableEq, Repr

/-- Observable record of one validate call: the callback value, whether
the synchronous evaluator ran, and the indices of the validation specs
whose extra validator was actually invoked, in invocation order. -/
structure ValidateRun where
  outcome : ValidateOutcome
  syncEvalRan : Bool
  invoked : List Nat
deriving DecidableEq, Repr

/-- JavaScript object update: overwrite the key in place if present,
otherwise append (insertion-order semantics). -/
def setAssoc (m : List (String × String)) (k v : String) : List (String × String) :=
  if m.any (fun p => p.1 == k) then m.map (fun p => if p.1 == k then (p.1, v) else p)
  else m ++ [(k, v)]

/-- Assoc-list lookup used for the rules and messages maps. -/
def lookupA (m : List (String × String)) (k : String) : Option String :=
  (m.find? (fun p => p.1 == k)).map (fun p => p.2)

/-- ResultSet lookup (property to boolean validity). -/
def lookupRS (rs : List (String × Bool)) (p : String) : Option Bool :=
  (rs.find? (fun q => q.1 == p)).map (fun q => q.2)

/-- result.results[v.property] = false: overwrite in place if present,
else add the key (JavaScript object assignment). -/
def setFalse (rs : List (String × Bool)) (k : String) : List (String × Bool) :=
  if rs.any (fun p => p.1 == k) then rs.map (fun p => if p.1 == k then (p.1, false) else p)
  else rs ++ [(k, false)]

/-- _.extend({}, doc, doc.fields): doc attributes first, then the
fields sub-map merged over them, later source winning. -/
def flattenDoc (d : MDoc) : AttrMap :=
  { docId := d.docId, fields := d.fields.foldl (fun m kv => setAssoc m kv.1 kv.2) d.attrs }

/-- ignores = ignores || []; if (!isArray) ignores = [ignores].  A
falsy single value (the empty string) is replaced by the empty list
before the wrap, so it never reaches the one-element form. -/
def wrapIgnores : IgnoresArg → List String
  | .omitted => []
  | .single s => if s == "" then [] else [s]
  | .list l => l

/-- extractErrors: reduce the result map, emitting a descriptor for
every false, non-ignored property in iteration order. -/
def extractErrors (result : List (String × Bool)) (msgs : String → Option String)
    (ignores : IgnoresArg) : List VError :=
  let ig := wrapIgnores ignores
  result.foldl (fun memo kv =>
    if !kv.2 && !(ig.contains kv.1) then memo ++ [⟨"invalid_" ++ kv.1, msgs kv.1⟩]
    else memo) []

/-- getMessages: property to localized message for each spec declaring
a property and a message or translation key (getMessage abstracts
messages.getMessage with the locale already applied). -/
def getMessages (getMessage : ValidationSpec → String) (vs : List ValidationSpec) :
    List (String × String) :=
  vs.foldl (fun memo v =>
    if v.property != "" && (v.message.isSome || v.translation_key.isSome)
    then setAssoc memo v.property (getMessage v) else memo) []

/-- getRules: property to rule string for each spec declaring both. -/
def getRules (vs : List ValidationSpec) : List (String × String) :=
  vs.foldl (fun memo v =>
    if v.property != "" && v.rule != "" then setAssoc memo v.property v.rule else memo) []

/-- Object.keys(extra_validations), in declaration order. -/
def registryNames : List String := ["unique", "uniqueWithin", "exists", "isISOWeek"]

/-- s.indexOf(pat) >= 0: pat occurs somewhere inside s. -/
def containsSub (s pat : String) : Bool := decide (pat.data <:+: s.data)

/-- The suffix reading of the guard, used only to state the spec's
wording for comparison with the source's containment check. -/
def endsWithStr (s suf : String) : Bool := decide (suf.data <:+ s.data)

/-- One step of the rewriter over a single sub-entity: if its funcName
is registered and '_' ++ funcName does not yet occur inside the spec's
property, record funcName/funcArgs, set field to the current property
and append '_' ++ funcName to the property; otherwise no change. -/
def subStep (v : ValidationSpec) (e : SubEntity) : ValidationSpec :=
  if registryNames.contains e.funcName then
    if containsSub v.property ("_" ++ e.funcName) then v
    else { v with funcName := some e.funcName, funcArgs := e.funcArgs,
                  field := some v.property, property := v.property ++ ("_" ++ e.funcName) }
  else v

/-- The rewriter's walk over the parsed entities of one rule: for each
entity with a non-empty sub list, fold subStep over its sub-entities. -/
def rewriteSpec (ents : List Entity) (v : ValidationSpec) : ValidationSpec :=
  ents.foldl (fun acc ent => if 0 < ent.sub.length then ent.sub.foldl subStep acc else acc) v

/-- The error string pushed for a pupil failure (JSON.stringify of the
thrown value abstracted into the carried string). -/
def pupilErrMsg (e : String) : String := "Error on pupil validations: " ++ e

/-- The rewriting loop over the whole validations list: parse each rule
(collecting an error string per failing rule, leaving that spec
unchanged) and rewrite the specs whose rule parsed. -/
def rewritePass (parse : String → Except String (List Entity)) :
    List ValidationSpec → List ValidationSpec × List String
  | [] => ([], [])
  | v :: rest =>
    match parse v.rule with
    | .error e =>
      let r := rewritePass parse rest
      (v :: r.1, pupilErrMsg e :: r.2)
    | .ok ents =>
      let r := rewritePass parse rest
      (rewriteSpec ents v :: r.1, r.2)

/-- The error reported when _exists receives no fields. -/
def noArgsMsg : String := "No arguments provided to \"exists\" validation function"

/-- The view key for one field: field ++ ":" ++ lowercased value, with
an absent attribute rendering as the string "undefined" (JavaScript
template-literal behaviour). -/
def attrKey (attrs : AttrMap) (field : String) : String :=
  field ++ ":" ++ (match attrs.get field with
    | some s => s.toLower
    | none => "undefined")

/-- async.map over the keyed view lookups: all row lists in request
order, or the first injected error. -/
def runQueries (ds : Datastore) : List String → Except String (List (List String))
  | [] => .ok []
  | k :: rest =>
    match ds.queryErr k with
    | some e => .error e
    | none => (runQueries ds rest).map (fun rs => ds.queryRows k :: rs)

/-- _getIntersection: ids of the popped (last) response, kept only when
present in every other response. -/
def getIntersection (rs : List (List String)) : List String :=
  match rs.getLast? with
  | none => []
  | some base => base.filter (fun id => rs.dropLast.all (fun r => r.contains id))

/-- _exists: the shared existence check.  Returns the issued view keys
alongside the result so that "no query was issued" is observable.
Empty field list: immediate error, no queries.  Otherwise: one keyed
lookup per field (plus the lowercased additional filter), intersect,
drop the document's own id; empty remainder means false, else fetch
the docs and report whether any is error-free and (when a start date
is given) reported on or after it. -/
def existsCheck (ds : Datastore) (attrs : AttrMap) (fields : List String)
    (addFilter : Option String) (startDate : Option Int) :
    List String × Except String Bool :=
  if fields.isEmpty then ([], .error noArgsMsg)
  else
    let keys := fields.map (attrKey attrs) ++
      (match addFilter with | some f => [f.toLower] | none => [])
    (keys,
      match runQueries ds keys with
      | .error e => .error e
      | .ok responses =>
        let ids := (getIntersection responses).filter (fun id => id != attrs.docId)
        if ids.isEmpty then .ok false
        else
          match ds.allDocsErr with
          | some e => .error e
          | none =>
            .ok (ids.any (fun id =>
              let d := ds.getDoc id
              d.errors.isEmpty &&
                (match startDate with
                 | none => true
                 | some sd => decide (sd ≤ d.reported_date)))))

/-- extra_validations.unique: _exists over funcArgs, result negated. -/
def uniqueVal (ds : Datastore) (attrs : AttrMap) (v : ValidationSpec) :
    List String × Except String Bool :=
  let r := existsCheck ds attrs v.funcArgs none none
  (r.1, r.2.map (fun b => !b))

/-- extra_validations.uniqueWithin: last funcArg is the duration, the
rest are the fields; start date is now minus the parsed duration. -/
def uniqueWithinVal (env : Env) (attrs : AttrMap) (v : ValidationSpec) :
    List String × Except String Bool :=
  let fields := v.funcArgs.dropLast
  let startDate := env.now - env.parseDur (v.funcArgs.getLastD "")
  let r := existsCheck env.ds attrs fields none (some startDate)
  (r.1, r.2.map (fun b => !b))

/-- extra_validations.exists: single field lookup with the additional
filter form:<formName>; a missing funcArgs entry renders as the string
"undefined" (JavaScript template-literal behaviour). -/
def existsValF (ds : Datastore) (attrs : AttrMap) (v : ValidationSpec) :
    List String × Except String Bool :=
  let formName := v.funcArgs.getD 0 "undefined"
  let fieldName := v.funcArgs.getD 1 "undefined"
  existsCheck ds attrs [fieldName] (some ("form:" ++ formName)) none

/-- /^\d{1,2}$/ -/
def reDigits12 (s : String) : Bool :=
  (s.length == 1 || s.length == 2) && s.data.all (fun c => c.isDigit)

/-- /^\d{4}$/ -/
def reDigits4 (s : String) : Bool :=
  s.length == 4 && s.data.all (fun c => c.isDigit)

/-- JavaScript numeric coercion of an all-digit string (the only case
the validator reaches, its regexes having passed). -/
def digitsToNat (s : String) : Nat :=
  s.data.foldl (fun a c => a * 10 + (c.toNat - 48)) 0

/-- Day-of-week anchor of the ISO long-year rule. -/
def isoPVal (y : Nat) : Nat := (y + y / 4 - y / 100 + y / 400) % 7

/-- moment isoWeeksInYear: 53 for long ISO years, else 52 (a year is
long when it starts on Thursday, or on Wednesday in a leap year). -/
def isoWeeksInYear (y : Nat) : Nat :=
  if isoPVal y == 4 || isoPVal (y - 1) == 3 then 53 else 52

/-- funcArgs[0] of isISOWeek (absent coerced like JavaScript to a name
no document carries). -/
def weekFieldOf (v : ValidationSpec) : String := v.funcArgs.headD ""

/-- funcArgs[1] || null of isISOWeek: a missing or empty-string second
argument both count as no year field. -/
def yearFieldOf (v : ValidationSpec) : Option String :=
  match v.funcArgs.getD 1 "" with
  | "" => none
  | s => some s

/-- extra_validations.isISOWeek: false (no error) when a referenced
field is absent; otherwise the week must be a 1-2 digit string, the
year (designated field or current year) a 4-digit string, and the week
number between 1 and the ISO week count of that year. -/
def isoWeekVal (currentYear : Nat) (attrs : AttrMap) (v : ValidationSpec) :
    Except String Bool :=
  if (attrs.get (weekFieldOf v)).isNone ||
     (match yearFieldOf v with
      | some yf => (attrs.get yf).isNone
      | none => false) then
    .ok false
  else
    let week := (attrs.get (weekFieldOf v)).getD ""
    -- year is the year field's string, or the numeric current year;
    -- the 4-digit regex coerces it to its decimal string, and moment
    -- coerces the string back to its numeric value.
    let yearStr :=
      match yearFieldOf v with
      | some yf => (attrs.get yf).getD ""
      | none => toString currentYear
    let yearNum :=
      match yearFieldOf v with
      | some yf => digitsToNat ((attrs.get yf).getD "")
      | none => currentYear
    .ok (reDigits12 week && reDigits4 yearStr &&
      decide (1 ≤ digitsToNat week) &&
      decide (digitsToNat week ≤ isoWeeksInYear yearNum))

/-- Dispatch through the extra_validations registry by funcName.  The
rewriter only assigns registered names; an unregistered name (outside
the modelled contract) acts as a successful no-op. -/
def runExtraValidation (env : Env) (attrs : AttrMap) (v : ValidationSpec) :
    Except String Bool :=
  match v.funcName with
  | some "unique" => (uniqueVal env.ds attrs v).2
  | some "uniqueWithin" => (uniqueWithinVal env attrs v).2
  | some "exists" => (existsValF env.ds attrs v).2
  | some "isISOWeek" => isoWeekVal env.currentYear attrs v
  | _ => .ok true

/-- async.eachSeries over the specs, indexed: specs without funcName
are skipped; a validator error stops the walk at once (remaining specs
never invoked); a false result overwrites the property's slot with
false; a true result writes nothing.  Returns the final ResultSet, the
indices of the invoked validators in order, and whether the walk was
stopped by an error. -/
def orchestrateIdx (env : Env) (attrs : AttrMap) :
    List ValidationSpec → Nat → List (String × Bool) →
    List (String × Bool) × List Nat × Bool
  | [], _, rs => (rs, [], false)
  | v :: rest, i, rs =>
    match v.funcName with
    | none => orchestrateIdx env attrs rest (i + 1) rs
    | some _ =>
      match runExtraValidation env attrs v with
      | .error _ => (rs, [i], true)
      | .ok b =>
        let r := orchestrateIdx env attrs rest (i + 1)
          (if b then rs else setFalse rs v.property)
        (r.1, i :: r.2.1, r.2.2)

/-- The external collaborators of one validate call: the pupil lexer
plus parser, pupil.validate (its results and fields() maps coincide),
and the locale-resolved message lookup. -/
structure ValidateCtx where
  env : Env
  parse : String → Except String (List Entity)
  pupilValidate : List (String × String) → AttrMap → Except String (List (String × Bool))
  getMessage : ValidationSpec → String

/-- validate: rewrite (collecting parse errors; any parse error is
returned to the callback at once and nothing further runs), flatten
the document, run pupil.validate (a throw is returned as a
single-element error list), run the extra validators strictly in
series, and hand extractErrors of the merged ResultSet to the
callback.  The series final callback discards any validator error: the
callback value in that path is still the field-level descriptor
list. -/
def validate (ctx : ValidateCtx) (doc : MDoc) (validations : List ValidationSpec)
    (ignores : IgnoresArg) : ValidateRun :=
  let r := rewritePass ctx.parse validations
  if r.2.isEmpty then
    let attrs := flattenDoc doc
    match ctx.pupilValidate (getRules r.1) attrs with
    | .error e =>
      { outcome := .evalErr [pupilErrMsg e], syncEvalRan := true, invoked := [] }
    | .ok res =>
      let o := orchestrateIdx ctx.env attrs r.1 0 res
      { outcome := .fieldErrs (extractErrors o.1
          (lookupA (getMessages ctx.getMessage r.1)) ignores),
        syncEvalRan := true, invoked := o.2.1 }
  else { outcome := .parseErrs r.2, syncEvalRan := false, invoked := [] }

/-! Concrete fixtures shared by witnesses and counterexamples. -/

/-- A well-behaved empty datastore. -/
def dsNone : Datastore :=
  { queryRows := fun _ => [], queryErr := fun _ => none,
    allDocsErr := none, getDoc := fun _ => {} }

/-- A datastore whose every view lookup fails. -/
def dsErr : Datastore :=
  { queryRows := fun _ => [], queryErr := fun _ => some "datastore down",
    allDocsErr := none, getDoc := fun _ => {} }

/-- Environment over the empty datastore. -/
def envNone : Env := { ds := dsNone, now := 0, currentYear := 2026, parseDur := fun _ => 0 }

/-- Environment over the failing datastore. -/
def envErr : Env := { ds := dsErr, now := 0, currentYear := 2026, parseDur := fun _ => 0 }

/-- An attribute map with no fields. -/
def attrsEmpty : AttrMap := { docId := "d0", fields := [] }

/-- A document with no fields. -/
def docEmpty : MDoc := { docId := "d0" }

/-- A context whose every rule fails to parse. -/
def ctxBad : ValidateCtx :=
  { env := envNone, parse := fun _ => .error "bad",
    pupilValidate := fun _ _ => .ok [], getMessage := fun _ => "m" }

/-- Claim C10: the shared existence check, given an empty field list,
reports the no-arguments Error to its callback without issuing any
datastore query; unique with empty funcArgs and uniqueWithin with only
a duration argument are exactly this case. -/
theorem existsCheck_emptyFields_errors :
    (∀ (ds : Datastore) (attrs : AttrMap) (addF : Option String) (sd : Option Int),
      existsCheck ds attrs [] addF sd = ([], Except.error noArgsMsg)) ∧
    (∀ (ds : Datastore) (attrs : AttrMap) (v : ValidationSpec), v.funcArgs = [] →
      uniqueVal ds attrs v = ([], Except.error noArgsMsg)) ∧
    (∀ (env : Env) (attrs : AttrMap) (v : ValidationSpec) (d : String),
      v.funcArgs = [d] →
      uniqueWithinVal env attrs v = ([], Except.error noArgsMsg)) := by
  refine ⟨fun ds attrs addF sd => rfl, fun ds attrs v h => ?_, fun env attrs v d h => ?_⟩
  · simp [uniqueVal, existsCheck, h, Except.map]
  · simp [uniqueWithinVal, existsCheck, h, Except.map]

/-- Witness for C10: unique over empty funcArgs, and uniqueWithin with
only the duration argument, both report the no-arguments Error with no
query issued. -/
theorem existsCheck_emptyFields_errors_witness :
    uniqueVal dsNone attrsEmpty { property := "p_unique", rule := "unique()" }
      = ([], Except.error noArgsMsg) ∧
    uniqueWithinVal envNone attrsEmpty
      { property := "p_uniqueWithin", rule := "uniqueWithin(2 days)",
        funcArgs := ["2 days"] } = ([], Except.error noArgsMsg) :=
  ⟨existsCheck_emptyFields_errors.2.1 dsNone attrsEmpty _ rfl,
   existsCheck_emptyFields_errors.2.2 envNone attrsEmpty _ "2 days" rfl⟩

/-- Unrolling the extractErrors reduction into filter plus map. -/
theorem extractErrors_fold_eq (ig : List String) (msgs : String → Option String) :
    ∀ (l : List (String × Bool)) (acc : List VError),
      l.foldl (fun memo kv =>
          if !kv.2 && !(ig.contains kv.1) then memo ++ [⟨"invalid_" ++ kv.1, msgs kv.1⟩]
          else memo) acc
        = acc ++ (l.filter (fun kv => !kv.2 && !(ig.contains kv.1))).map
            (fun kv => ⟨"invalid_" ++ kv.1, msgs kv.1⟩) := by
  intro l
  induction l with
  | nil => intro acc; simp
  | cons kv t ih =>
    intro acc
    by_cases hc : (!kv.2 && !(ig.contains kv.1)) = true
    · simp only [List.foldl_cons, List.filter_cons, hc, if_pos, List.map_cons]
      rw [ih]
      simp
    · simp only [List.foldl_cons, List.filter_cons, hc, if_neg, Bool.false_eq_true,
        not_false_eq_true, if_false]
      rw [ih]

/-- Claim C9 (amended): extractErrors emits, in result iteration order,
exactly one descriptor with code "invalid_" ++ property and the looked
up message per false property outside the wrapped ignore set; a single
non-array ignore value forms a one-element set only when it is a
non-empty string, the empty string (falsy) yielding the empty set. -/
theorem extractErrors_characterization :
    (∀ (result : List (String × Bool)) (msgs : String → Option String) (ig : IgnoresArg),
      extractErrors result msgs ig =
        (result.filter (fun kv => !kv.2 && !((wrapIgnores ig).contains kv.1))).map
          (fun kv => ⟨"invalid_" ++ kv.1, msgs kv.1⟩)) ∧
    (∀ s : String, s ≠ "" → wrapIgnores (.single s) = [s]) ∧
    wrapIgnores (.single "") = [] := by
  refine ⟨fun result msgs ig => ?_, fun s h => ?_, rfl⟩
  · unfold extractErrors
    rw [extractErrors_fold_eq]
    simp
  · simp [wrapIgnores, h]

/-- Witness for C9 (amended): a non-empty single ignore value wraps to
the one-element set, and a false ignored property is dropped while a
false non-ignored one is emitted. -/
theorem extractErrors_characterization_witness :
    wrapIgnores (IgnoresArg.single "xyz") = ["xyz"] ∧
    extractErrors [("a", false), ("b", false)] (fun _ => none) (IgnoresArg.single "a")
      = [⟨"invalid_b", none⟩] :=
  ⟨extractErrors_characterization.2.1 "xyz" (by decide),
   by rw [extractErrors_characterization.1]; decide⟩

/-- Counterexample for C9: with ignores the single empty string and the
empty-string property false in the result map, the claim says the
ignored property never appears, but ignores || [] discards the falsy
single value, so the descriptor is emitted anyway. -/
theorem extractErrors_single_empty_ignore_cex :
    extractErrors [("", false)] (fun _ => none) (IgnoresArg.single "")
      = [⟨"invalid_", none⟩] ∧
    extractErrors [("", false)] (fun _ => none) (IgnoresArg.single "") ≠ [] := by
  decide

/-- The error-string side of the rewriting loop: one pupil error string
per failing rule, in declaration order. -/
theorem rewritePass_errors_eq (parse : String → Except String (List Entity)) :
    ∀ vs : List ValidationSpec,
      (rewritePass parse vs).2 = vs.filterMap (fun v =>
        match parse v.rule with
        | .error e => some (pupilErrMsg e)
        | .ok _ => none) := by
  intro vs
  induction vs with
  | nil => rfl
  | cons v rest ih =>
    unfold rewritePass
    cases h : parse v.rule with
    | error e => simp [h, ih]
    | ok ents => simp [h, ih]

/-- Claim C6 (amended): when at least one rule fails to parse, validate
invokes the callback at once with the collected parse-error strings --
one string per failing rule, in declaration order -- and neither the
synchronous evaluator nor any extra validator runs. -/
theorem validate_parse_error_aborts (ctx : ValidateCtx) (doc : MDoc)
    (validations : List ValidationSpec) (ignores : IgnoresArg)
    (h : (rewritePass ctx.parse validations).2 ≠ []) :
    validate ctx doc validations ignores =
      { outcome := .parseErrs (rewritePass ctx.parse validations).2,
        syncEvalRan := false, invoked := [] } ∧
    (rewritePass ctx.parse validations).2 =
      validations.filterMap (fun v =>
        match ctx.parse v.rule with
        | .error e => some (pupilErrMsg e)
        | .ok _ => none) := by
  refine ⟨?_, rewritePass_errors_eq ctx.parse validations⟩
  unfold validate
  rw [if_neg]
  simp [h]

/-- Witness for C6 (amended): a single failing rule gives the
single-element parse-error outcome with no later stage run. -/
theorem validate_parse_error_aborts_witness :
    validate ctxBad docEmpty [{ property := "a", rule := "r1" }] IgnoresArg.omitted =
      { outcome := .parseErrs (rewritePass ctxBad.parse [{ property := "a", rule := "r1" }]).2,
        syncEvalRan := false, invoked := [] } ∧
    (rewritePass ctxBad.parse [{ property := "a", rule := "r1" }]).2 =
      [{ property := "a", rule := "r1" : ValidationSpec }].filterMap (fun v =>
        match ctxBad.parse v.rule with
        | .error e => some (pupilErrMsg e)
        | .ok _ => none) :=
  validate_parse_error_aborts ctxBad docEmpty _ IgnoresArg.omitted (by decide)

/-- Counterexample for C6: with two unparseable rules the callback
receives a two-element string list, not a single-element one. -/
theorem validate_two_parse_errors_cex :
    (validate ctxBad docEmpty
        [{ property := "a", rule := "r1" }, { property := "b", rule := "r2" }]
        IgnoresArg.omitted).outcome
      = ValidateOutcome.parseErrs [pupilErrMsg "bad", pupilErrMsg "bad"] ∧
    [pupilErrMsg "bad", pupilErrMsg "bad"].length ≠ 1 := by
  decide

/-- Equality of Except values of comparable payloads is decidable
(used by concrete witnesses and counterexamples). -/
instance instDecEqExcept {ε α : Type} [DecidableEq ε] [DecidableEq α] :
    DecidableEq (Except ε α) := fun x y =>
  match x, y with
  | .ok a, .ok b =>
    if h : a = b then .isTrue (by rw [h]) else .isFalse (fun hh => h (Except.ok.inj hh))
  | .error a, .error b =>
    if h : a = b then .isTrue (by rw [h]) else .isFalse (fun hh => h (Except.error.inj hh))
  | .ok _, .error _ => .isFalse (fun hh => Except.noConfusion hh)
  | .error _, .ok _ => .isFalse (fun hh => Except.noConfusion hh)

/-- A false entry of the ResultSet stays false across the orchestrator
write of any property (the write only places false values). -/
theorem lookupRS_setFalse_false {rs : List (String × Bool)} {p k : String}
    (h : lookupRS rs p = some false) : lookupRS (setFalse rs k) p = some false := by
  unfold setFalse
  by_cases hany : (rs.any (fun q => q.1 == k)) = true
  · rw [if_pos hany]
    unfold lookupRS at h ⊢
    rw [List.find?_map]
    have hpf : ((fun q : String × Bool => q.1 == p) ∘
        (fun q : String × Bool => if q.1 == k then (q.1, false) else q))
        = fun q : String × Bool => q.1 == p := by
      funext q
      by_cases hq : q.1 = k <;> simp [hq]
    rw [hpf]
    cases hf : rs.find? (fun q => q.1 == p) with
    | none => rw [hf] at h; simp at h
    | some q0 =>
      rw [hf] at h
      have h2 : q0.2 = false := by simpa using h
      by_cases hq : q0.1 = k <;> simp [hq, h2]
  · rw [if_neg hany]
    unfold lookupRS at h ⊢
    cases hf : rs.find? (fun q => q.1 == p) with
    | none => rw [hf] at h; simp at h
    | some q0 => rw [List.find?_append, hf]; rw [hf] at h; simpa using h

/-- Unfolding equation for one orchestrator step. -/
theorem orchestrateIdx_cons (env : Env) (attrs : AttrMap) (v : ValidationSpec)
    (rest : List ValidationSpec) (i : Nat) (rs : List (String × Bool)) :
    orchestrateIdx env attrs (v :: rest) i rs =
      match v.funcName with
      | none => orchestrateIdx env attrs rest (i + 1) rs
      | some _ =>
        match runExtraValidation env attrs v with
        | .error _ => (rs, [i], true)
        | .ok b =>
          let r := orchestrateIdx env attrs rest (i + 1)
            (if b then rs else setFalse rs v.property)
          (r.1, i :: r.2.1, r.2.2) := rfl

/-- Claim C2: the Async Orchestrator only ever writes false -- a
property the Sync Evaluator set to false is still false in the final
ResultSet, and a step whose extra validator returns true passes the
ResultSet on unchanged. -/
theorem orchestrator_monotone (env : Env) (attrs : AttrMap) :
    (∀ (vs : List ValidationSpec) (i : Nat) (rs : List (String × Bool)) (p : String),
      lookupRS rs p = some false →
      lookupRS (orchestrateIdx env attrs vs i rs).1 p = some false) ∧
    (∀ (v : ValidationSpec) (rest : List ValidationSpec) (i : Nat)
        (rs : List (String × Bool)),
      v.funcName.isSome = true →
      runExtraValidation env attrs v = .ok true →
      (orchestrateIdx env attrs (v :: rest) i rs).1 =
        (orchestrateIdx env attrs rest (i + 1) rs).1) := by
  constructor
  · intro vs
    induction vs with
    | nil => intro i rs p h; exact h
    | cons v rest ih =>
      intro i rs p h
      unfold orchestrateIdx
      cases hfn : v.funcName with
      | none => exact ih (i + 1) rs p h
      | some s =>
        cases hrun : runExtraValidation env attrs v with
        | error e => exact h
        | ok b =>
          cases b with
          | false => exact ih (i + 1) _ p (lookupRS_setFalse_false h)
          | true => exact ih (i + 1) rs p h
  · intro v rest i rs hfn hrun
    obtain ⟨s, hs⟩ := Option.isSome_iff_exists.mp hfn
    rw [orchestrateIdx_cons, hs, hrun]
    rfl

/-- Witness for C2: a property false after sync evaluation stays false
through an orchestrator run, and a validator answering true leaves the
ResultSet untouched. -/
theorem orchestrator_monotone_witness :
    lookupRS (orchestrateIdx envNone attrsEmpty
        [{ property := "q_isISOWeek", rule := "isISOWeek(w)",
           funcName := some "isISOWeek", funcArgs := ["w"] }] 0 [("p", false)]).1 "p"
      = some false ∧
    (orchestrateIdx envNone { docId := "d0", fields := [("w", "5")] }
        [{ property := "q_isISOWeek", rule := "isISOWeek(w)",
           funcName := some "isISOWeek", funcArgs := ["w"] }] 0 [("p", true)]).1 =
      (orchestrateIdx envNone { docId := "d0", fields := [("w", "5")] }
        [] 1 [("p", true)]).1 :=
  ⟨(orchestrator_monotone envNone attrsEmpty).1 _ 0 _ "p" (by decide),
   (orchestrator_monotone envNone { docId := "d0", fields := [("w", "5")] }).2
     _ [] 0 [("p", true)] (by decide) (by decide)⟩

/-- Every invoked index lies in the range of the walked sublist, and
the trace is strictly increasing (declaration order). -/
theorem orchestrateIdx_trace_bounds (env : Env) (attrs : AttrMap) :
    ∀ (l : List ValidationSpec) (i : Nat) (rs : List (String × Bool)),
      (∀ j ∈ (orchestrateIdx env attrs l i rs).2.1, i ≤ j ∧ j < i + l.length) ∧
      (orchestrateIdx env attrs l i rs).2.1.Pairwise (· < ·) := by
  intro l
  induction l with
  | nil => intro i rs; simp [orchestrateIdx]
  | cons v rest ih =>
    intro i rs
    rw [orchestrateIdx_cons]
    cases hfn : v.funcName with
    | none =>
      obtain ⟨hb, hp⟩ := ih (i + 1) rs
      refine ⟨fun j hj => ?_, hp⟩
      obtain ⟨h1, h2⟩ := hb j hj
      exact ⟨by omega, by simp [List.length_cons]; omega⟩
    | some s =>
      cases hrun : runExtraValidation env attrs v with
      | error e =>
        refine ⟨fun j hj => ?_, by simp⟩
        simp only [List.mem_singleton] at hj
        exact ⟨by omega, by simp [List.length_cons]; omega⟩
      | ok b =>
        obtain ⟨hb, hp⟩ := ih (i + 1) (if b then rs else setFalse rs v.property)
        constructor
        · intro j hj
          simp only [List.mem_cons] at hj
          rcases hj with hj | hj
          · exact ⟨by omega, by simp [List.length_cons]; omega⟩
          · obtain ⟨h1, h2⟩ := hb j hj
            exact ⟨by omega, by simp [List.length_cons]; omega⟩
        · refine List.Pairwise.cons (fun j hj => ?_) hp
          obtain ⟨h1, _⟩ := hb j hj
          omega

/-- Composing an orchestrator walk: if the first block finishes
without error, walking the concatenation equals walking the first
block and continuing with the second from the resulting ResultSet,
traces concatenated. -/
theorem orchestrateIdx_append (env : Env) (attrs : AttrMap) (pre : List ValidationSpec) :
    ∀ (l : List ValidationSpec) (i : Nat) (rs : List (String × Bool)),
      (orchestrateIdx env attrs pre i rs).2.2 = false →
      (orchestrateIdx env attrs (pre ++ l) i rs).1 =
          (orchestrateIdx env attrs l (i + pre.length)
            (orchestrateIdx env attrs pre i rs).1).1 ∧
      (orchestrateIdx env attrs (pre ++ l) i rs).2.1 =
          (orchestrateIdx env attrs pre i rs).2.1 ++
          (orchestrateIdx env attrs l (i + pre.length)
            (orchestrateIdx env attrs pre i rs).1).2.1 ∧
      (orchestrateIdx env attrs (pre ++ l) i rs).2.2 =
          (orchestrateIdx env attrs l (i + pre.length)
            (orchestrateIdx env attrs pre i rs).1).2.2 := by
  induction pre with
  | nil => intro l i rs _; simp [orchestrateIdx]
  | cons v pre' ih =>
    intro l i rs hflag
    cases hfn : v.funcName with
    | none =>
      have e1 : orchestrateIdx env attrs ((v :: pre') ++ l) i rs =
          orchestrateIdx env attrs (pre' ++ l) (i + 1) rs := by
        rw [List.cons_append, orchestrateIdx_cons, hfn]
      have e2 : orchestrateIdx env attrs (v :: pre') i rs =
          orchestrateIdx env attrs pre' (i + 1) rs := by
        rw [orchestrateIdx_cons, hfn]
      rw [e2] at hflag
      obtain ⟨a1, a2, a3⟩ := ih l (i + 1) rs hflag
      have harith : i + (v :: pre').length = i + 1 + pre'.length := by
        simp [List.length_cons]; omega
      rw [e1, e2, harith]
      exact ⟨a1, a2, a3⟩
    | some s =>
      cases hrun : runExtraValidation env attrs v with
      | error e =>
        have e2 : orchestrateIdx env attrs (v :: pre') i rs = (rs, [i], true) := by
          rw [orchestrateIdx_cons, hfn, hrun]
        rw [e2] at hflag
        simp at hflag
      | ok b =>
        have e1 : orchestrateIdx env attrs ((v :: pre') ++ l) i rs =
            ((orchestrateIdx env attrs (pre' ++ l) (i + 1)
                (if b then rs else setFalse rs v.property)).1,
             i :: (orchestrateIdx env attrs (pre' ++ l) (i + 1)
                (if b then rs else setFalse rs v.property)).2.1,
             (orchestrateIdx env attrs (pre' ++ l) (i + 1)
                (if b then rs else setFalse rs v.property)).2.2) := by
          rw [List.cons_append, orchestrateIdx_cons, hfn, hrun]
        have e2 : orchestrateIdx env attrs (v :: pre') i rs =
            ((orchestrateIdx env attrs pre' (i + 1)
                (if b then rs else setFalse rs v.property)).1,
             i :: (orchestrateIdx env attrs pre' (i + 1)
                (if b then rs else setFalse rs v.property)).2.1,
             (orchestrateIdx env attrs pre' (i + 1)
                (if b then rs else setFalse rs v.property)).2.2) := by
          rw [orchestrateIdx_cons, hfn, hrun]
        rw [e2] at hflag
        simp only at hflag
        obtain ⟨a1, a2, a3⟩ := ih l (i + 1) (if b then rs else setFalse rs v.property) hflag
        have harith : i + (v :: pre').length = i + 1 + pre'.length := by
          simp [List.length_cons]; omega
        rw [e1, e2, harith]
        exact ⟨a1, by simp [a2], a3⟩

/-- Claim C3: extra validators run strictly sequentially in
declaration order (the invocation trace is the strictly increasing
list of indices), and when the validator of the spec after a cleanly
completed block errors, no later spec's validator is ever invoked. -/
theorem orchestrator_sequential_abort (env : Env) (attrs : AttrMap)
    (pre : List ValidationSpec) (v : ValidationSpec) (post : List ValidationSpec)
    (rs : List (String × Bool))
    (hpre : (orchestrateIdx env attrs pre 0 rs).2.2 = false)
    (hfn : v.funcName.isSome = true)
    (herr : ∃ e, runExtraValidation env attrs v = Except.error e) :
    (orchestrateIdx env attrs (pre ++ v :: post) 0 rs).2.2 = true ∧
    (orchestrateIdx env attrs (pre ++ v :: post) 0 rs).2.1 =
      (orchestrateIdx env attrs pre 0 rs).2.1 ++ [pre.length] ∧
    (∀ j ∈ (orchestrateIdx env attrs (pre ++ v :: post) 0 rs).2.1, j ≤ pre.length) ∧
    (orchestrateIdx env attrs (pre ++ v :: post) 0 rs).2.1.Pairwise (· < ·) := by
  obtain ⟨e, he⟩ := herr
  obtain ⟨s, hs⟩ := Option.isSome_iff_exists.mp hfn
  have hstep : orchestrateIdx env attrs (v :: post) (0 + pre.length)
      (orchestrateIdx env attrs pre 0 rs).1 =
      ((orchestrateIdx env attrs pre 0 rs).1, [0 + pre.length], true) := by
    rw [orchestrateIdx_cons, hs, he]
  obtain ⟨a1, a2, a3⟩ := orchestrateIdx_append env attrs pre (v :: post) 0 rs hpre
  obtain ⟨hbounds, hpair⟩ := orchestrateIdx_trace_bounds env attrs pre 0 rs
  have htr : (orchestrateIdx env attrs (pre ++ v :: post) 0 rs).2.1 =
      (orchestrateIdx env attrs pre 0 rs).2.1 ++ [pre.length] := by
    rw [a2, hstep]
    simp
  refine ⟨by rw [a3, hstep], htr, ?_, ?_⟩
  · intro j hj
    rw [htr] at hj
    rcases List.mem_append.mp hj with hj | hj
    · obtain ⟨_, h2⟩ := hbounds j hj
      simp at h2
      omega
    · simp at hj
      omega
  · rw [htr]
    rw [List.pairwise_append]
    refine ⟨hpair, by simp, fun a ha b hb => ?_⟩
    simp at hb
    subst hb
    obtain ⟨_, h2⟩ := hbounds a ha
    simpa using h2

/-- Witness for C3: with a clean first validator, an erroring second
one, and a third present, the trace is exactly [0, 1]: index 2 never
runs. -/
theorem orchestrator_sequential_abort_witness :
    (orchestrateIdx envErr attrsEmpty
        ([{ property := "a_isISOWeek", rule := "isISOWeek(w)",
            funcName := some "isISOWeek", funcArgs := ["w"] }] ++
          { property := "p_unique", rule := "unique(p)",
            funcName := some "unique", funcArgs := ["p"] : ValidationSpec } ::
          [{ property := "q_unique", rule := "unique(q)",
             funcName := some "unique", funcArgs := ["q"] }]) 0 [("p_unique", true)]).2.2
      = true ∧
    (orchestrateIdx envErr attrsEmpty
        ([{ property := "a_isISOWeek", rule := "isISOWeek(w)",
            funcName := some "isISOWeek", funcArgs := ["w"] }] ++
          { property := "p_unique", rule := "unique(p)",
            funcName := some "unique", funcArgs := ["p"] : ValidationSpec } ::
          [{ property := "q_unique", rule := "unique(q)",
             funcName := some "unique", funcArgs := ["q"] }]) 0 [("p_unique", true)]).2.1 =
      (orchestrateIdx envErr attrsEmpty
        [{ property := "a_isISOWeek", rule := "isISOWeek(w)",
           funcName := some "isISOWeek", funcArgs := ["w"] }] 0 [("p_unique", true)]).2.1
        ++ [[({ property := "a_isISOWeek", rule := "isISOWeek(w)",
                funcName := some "isISOWeek", funcArgs := ["w"] } : ValidationSpec)].length] ∧
    (∀ j ∈ (orchestrateIdx envErr attrsEmpty
        ([{ property := "a_isISOWeek", rule := "isISOWeek(w)",
            funcName := some "isISOWeek", funcArgs := ["w"] }] ++
          { property := "p_unique", rule := "unique(p)",
            funcName := some "unique", funcArgs := ["p"] : ValidationSpec } ::
          [{ property := "q_unique", rule := "unique(q)",
             funcName := some "unique", funcArgs := ["q"] }]) 0 [("p_unique", true)]).2.1,
      j ≤ [({ property := "a_isISOWeek", rule := "isISOWeek(w)",
              funcName := some "isISOWeek", funcArgs := ["w"] } : ValidationSpec)].length) ∧
    (orchestrateIdx envErr attrsEmpty
        ([{ property := "a_isISOWeek", rule := "isISOWeek(w)",
            funcName := some "isISOWeek", funcArgs := ["w"] }] ++
          { property := "p_unique", rule := "unique(p)",
            funcName := some "unique", funcArgs := ["p"] : ValidationSpec } ::
          [{ property := "q_unique", rule := "unique(q)",
             funcName := some "unique", funcArgs := ["q"] }]) 0 [("p_unique", true)]).2.1.Pairwise
      (· < ·) :=
  orchestrator_sequential_abort envErr attrsEmpty
    [{ property := "a_isISOWeek", rule := "isISOWeek(w)",
       funcName := some "isISOWeek", funcArgs := ["w"] }]
    { property := "p_unique", rule := "unique(p)",
      funcName := some "unique", funcArgs := ["p"] }
    [{ property := "q_unique", rule := "unique(q)",
       funcName := some "unique", funcArgs := ["q"] }]
    [("p_unique", true)] (by decide) (by decide) ⟨"datastore down", by decide⟩

/-- A context whose second rule carries a unique() clause and whose
datastore fails every view lookup, while the sync evaluator marks the
first property invalid. -/
def ctxErr : ValidateCtx :=
  { env := envErr,
    parse := fun r => if r == "rule2" then .ok [⟨[⟨"unique", ["p"]⟩]⟩] else .ok [],
    pupilValidate := fun _ _ => .ok [("x", false), ("p_unique", true)],
    getMessage := fun _ => "m" }

/-- The two declared validations used with ctxErr. -/
def specsC1 : List ValidationSpec :=
  [{ property := "x", rule := "rule1" }, { property := "p", rule := "rule2" }]

/-- Claim C1 (amended): when parsing and sync evaluation succeed and
some extra validator errors, the walk stops there, but the final
callback value is still the field-level descriptor list extracted from
the ResultSet merged so far -- the series completion handler takes no
error argument, so the validator's error is logged but never surfaced
to the callback. -/
theorem validate_validator_error_not_surfaced (ctx : ValidateCtx) (doc : MDoc)
    (validations : List ValidationSpec) (ignores : IgnoresArg)
    (res : List (String × Bool))
    (hparse : (rewritePass ctx.parse validations).2 = [])
    (heval : ctx.pupilValidate (getRules (rewritePass ctx.parse validations).1)
        (flattenDoc doc) = .ok res)
    (herrored : (orchestrateIdx ctx.env (flattenDoc doc)
        (rewritePass ctx.parse validations).1 0 res).2.2 = true) :
    validate ctx doc validations ignores =
      { outcome := .fieldErrs (extractErrors
            (orchestrateIdx ctx.env (flattenDoc doc)
              (rewritePass ctx.parse validations).1 0 res).1
            (lookupA (getMessages ctx.getMessage (rewritePass ctx.parse validations).1))
            ignores),
        syncEvalRan := true,
        invoked := (orchestrateIdx ctx.env (flattenDoc doc)
            (rewritePass ctx.parse validations).1 0 res).2.1 } := by
  unfold validate
  simp only [hparse, heval, List.isEmpty_nil, if_true]

/-- Witness for C1 (amended): concrete run in which the unique
validator hits a failing datastore; the callback receives the
descriptor list of the partial ResultSet. -/
theorem validate_validator_error_not_surfaced_witness :
    validate ctxErr docEmpty specsC1 IgnoresArg.omitted =
      { outcome := .fieldErrs (extractErrors
            (orchestrateIdx ctxErr.env (flattenDoc docEmpty)
              (rewritePass ctxErr.parse specsC1).1 0 [("x", false), ("p_unique", true)]).1
            (lookupA (getMessages ctxErr.getMessage (rewritePass ctxErr.parse specsC1).1))
            IgnoresArg.omitted),
        syncEvalRan := true,
        invoked := (orchestrateIdx ctxErr.env (flattenDoc docEmpty)
            (rewritePass ctxErr.parse specsC1).1 0 [("x", false), ("p_unique", true)]).2.1 } :=
  validate_validator_error_not_surfaced ctxErr docEmpty specsC1 IgnoresArg.omitted
    [("x", false), ("p_unique", true)] (by decide) (by decide) (by decide)

/-- Counterexample for C1: in the same run the second spec's validator
reports a datastore error, yet the callback value is the non-empty
partial field-level descriptor list, not that error. -/
theorem validate_validator_error_cex :
    (validate ctxErr docEmpty specsC1 IgnoresArg.omitted).outcome
      = ValidateOutcome.fieldErrs [⟨"invalid_x", none⟩] ∧
    runExtraValidation ctxErr.env (flattenDoc docEmpty)
        { property := "p_unique", rule := "rule2", funcName := some "unique",
          funcArgs := ["p"], field := some "p" }
      = Except.error "datastore down" := by
  decide

/-- The per-entity walk equals one fold of subStep over the
concatenated sub lists (an empty sub list contributes nothing). -/
theorem rewriteSpec_eq_foldSub (ents : List Entity) (v : ValidationSpec) :
    rewriteSpec ents v = (ents.flatMap Entity.sub).foldl subStep v := by
  induction ents generalizing v with
  | nil => rfl
  | cons ent rest ih =>
    have hstep : rewriteSpec (ent :: rest) v =
        rewriteSpec rest (if 0 < ent.sub.length then ent.sub.foldl subStep v else v) := rfl
    rw [hstep]
    by_cases h : 0 < ent.sub.length
    · rw [if_pos h, ih]
      simp [List.foldl_append]
    · rw [if_neg h]
      have hnil : ent.sub = [] := List.length_eq_zero.mp (by omega)
      rw [ih]
      simp [hnil]

/-- Sub-entities with unregistered funcNames are identity steps. -/
theorem foldSub_filter_eq (l : List SubEntity) :
    ∀ v : ValidationSpec,
      l.foldl subStep v =
        (l.filter (fun e => registryNames.contains e.funcName)).foldl subStep v := by
  induction l with
  | nil => intro v; rfl
  | cons e rest ih =>
    intro v
    by_cases h : registryNames.contains e.funcName = true
    · simp only [List.foldl_cons, List.filter_cons, h, if_pos]
      exact ih (subStep v e)
    · have hid : subStep v e = v := by unfold subStep; rw [if_neg h]
      simp only [List.foldl_cons, List.filter_cons, h, Bool.false_eq_true, if_false, hid]
      exact ih v

/-- The registered sub-entities of a parsed rule, in walk order. -/
def regSubs (ents : List Entity) : List SubEntity :=
  (ents.flatMap Entity.sub).filter (fun e => registryNames.contains e.funcName)

/-- Claim C4 (amended): for a spec whose parsed rule carries exactly
one registered sub-entity, the rewriter records funcName and funcArgs,
sets field to the original property, and appends '_' ++ funcName to
the property, precisely when '_' ++ funcName does not already occur
inside the property as a substring (the source guard is
indexOf === -1, containment, not an ends-with test); when the property
does contain it, the spec is left unchanged. -/
theorem rewriter_single_sub (ents : List Entity) (v : ValidationSpec)
    (f : String) (args : List String)
    (hreg : regSubs ents = [⟨f, args⟩]) :
    (containsSub v.property ("_" ++ f) = false →
      rewriteSpec ents v =
        { v with funcName := some f, funcArgs := args,
                 field := some v.property,
                 property := v.property ++ ("_" ++ f) }) ∧
    (containsSub v.property ("_" ++ f) = true → rewriteSpec ents v = v) := by
  have hf : registryNames.contains f = true := by
    have hm : (⟨f, args⟩ : SubEntity) ∈
        (ents.flatMap Entity.sub).filter (fun e => registryNames.contains e.funcName) := by
      have h0 : (ents.flatMap Entity.sub).filter
          (fun e => registryNames.contains e.funcName) = [⟨f, args⟩] := hreg
      rw [h0]
      exact List.mem_singleton_self _
    exact (List.mem_filter.mp hm).2
  have heq : rewriteSpec ents v = subStep v ⟨f, args⟩ := by
    rw [rewriteSpec_eq_foldSub, foldSub_filter_eq]
    have h0 : (ents.flatMap Entity.sub).filter
        (fun e => registryNames.contains e.funcName) = [⟨f, args⟩] := hreg
    rw [h0]
    rfl
  have hsub : subStep v ⟨f, args⟩ =
      if registryNames.contains f = true then
        (if containsSub v.property ("_" ++ f) = true then v
         else { v with funcName := some f, funcArgs := args, field := some v.property,
                       property := v.property ++ ("_" ++ f) })
      else v := rfl
  constructor
  · intro hc
    rw [heq, hsub, if_pos hf, if_neg (by simp [hc])]
  · intro hc
    rw [heq, hsub, if_pos hf, if_pos hc]

/-- Witness for C4 (amended): a fresh property is rewritten with
recorded funcName, funcArgs, field and suffixed property; a property
already containing the suffix is untouched. -/
theorem rewriter_single_sub_witness :
    rewriteSpec [⟨[⟨"unique", ["x"]⟩]⟩] { property := "p", rule := "unique(x)" } =
      { property := "p" ++ ("_" ++ "unique"), rule := "unique(x)",
        funcName := some "unique", funcArgs := ["x"], field := some "p" } ∧
    rewriteSpec [⟨[⟨"unique", ["x"]⟩]⟩] { property := "p_unique", rule := "unique(x)" } =
      { property := "p_unique", rule := "unique(x)" } :=
  ⟨(rewriter_single_sub [⟨[⟨"unique", ["x"]⟩]⟩]
      { property := "p", rule := "unique(x)" } "unique" ["x"] (by decide)).1 (by decide),
   (rewriter_single_sub [⟨[⟨"unique", ["x"]⟩]⟩]
      { property := "p_unique", rule := "unique(x)" } "unique" ["x"] (by decide)).2 (by decide)⟩

/-- Counterexample for C4: the property foo_unique_bar does not end
with _unique, so the claim requires a rewrite, but the source's
indexOf containment guard fires and the spec is left unchanged. -/
theorem rewriter_contains_not_endswith_cex :
    endsWithStr "foo_unique_bar" "_unique" = false ∧
    rewriteSpec [⟨[⟨"unique", ["x"]⟩]⟩]
        { property := "foo_unique_bar", rule := "unique(x)" } =
      { property := "foo_unique_bar", rule := "unique(x)" } := by
  decide

/-- The rewriter never touches the rule string. -/
theorem subStep_rule (v : ValidationSpec) (e : SubEntity) : (subStep v e).rule = v.rule := by
  unfold subStep
  by_cases h1 : registryNames.contains e.funcName = true
  · rw [if_pos h1]
    by_cases h2 : containsSub v.property ("_" ++ e.funcName) = true
    · rw [if_pos h2]
    · rw [if_neg h2]
  · rw [if_neg h1]

/-- Rule preservation lifted through the sub-entity fold. -/
theorem foldSub_rule (l : List SubEntity) :
    ∀ v : ValidationSpec, (l.foldl subStep v).rule = v.rule := by
  induction l with
  | nil => intro v; rfl
  | cons e rest ih =>
    intro v
    rw [List.foldl_cons, ih (subStep v e), subStep_rule]

/-- Rule preservation for the whole per-rule rewrite. -/
theorem rewriteSpec_rule (ents : List Entity) (v : ValidationSpec) :
    (rewriteSpec ents v).rule = v.rule := by
  rw [rewriteSpec_eq_foldSub]
  exact foldSub_rule _ v

/-- A substring of the property survives the fold: steps only append
to the property. -/
theorem foldSub_preserves_infix (l : List SubEntity) :
    ∀ (v : ValidationSpec) (pat : List Char),
      pat <:+: v.property.data → pat <:+: ((l.foldl subStep v).property).data := by
  induction l with
  | nil => intro v pat h; exact h
  | cons e rest ih =>
    intro v pat h
    rw [List.foldl_cons]
    apply ih
    unfold subStep
    by_cases h1 : registryNames.contains e.funcName = true
    · rw [if_pos h1]
      by_cases h2 : containsSub v.property ("_" ++ e.funcName) = true
      · rw [if_pos h2]; exact h
      · rw [if_neg h2]
        show pat <:+: (v.property ++ ("_" ++ e.funcName)).data
        rw [String.data_append]
        exact h.trans ⟨[], ("_" ++ e.funcName).data, by simp⟩
    · rw [if_neg h1]; exact h

/-- After a registered step the suffix '_' ++ funcName occurs inside
the property (either it already did, or it was just appended). -/
theorem subStep_registered_after (v : ValidationSpec) (e : SubEntity)
    (h1 : registryNames.contains e.funcName = true) :
    ("_" ++ e.funcName).data <:+: ((subStep v e).property).data := by
  unfold subStep
  rw [if_pos h1]
  by_cases h2 : containsSub v.property ("_" ++ e.funcName) = true
  · rw [if_pos h2]
    exact of_decide_eq_true h2
  · rw [if_neg h2]
    show ("_" ++ e.funcName).data <:+: (v.property ++ ("_" ++ e.funcName)).data
    rw [String.data_append]
    exact ⟨v.property.data, [], by simp⟩

/-- After the whole fold, every registered sub-entity's suffix occurs
inside the resulting property. -/
theorem foldSub_all_infix (l : List SubEntity) :
    ∀ (v : ValidationSpec) (e : SubEntity), e ∈ l →
      registryNames.contains e.funcName = true →
      ("_" ++ e.funcName).data <:+: ((l.foldl subStep v).property).data := by
  induction l with
  | nil => intro v e he; cases he
  | cons e0 rest ih =>
    intro v e he hreg
    rw [List.foldl_cons]
    rcases List.mem_cons.mp he with he | he
    · subst he
      exact foldSub_preserves_infix rest _ _ (subStep_registered_after v e hreg)
    · exact ih (subStep v e0) e he hreg

/-- A fold whose every registered suffix already occurs inside the
property is the identity (the containment guard fires each time). -/
theorem foldSub_pass2_id (l : List SubEntity) :
    ∀ v : ValidationSpec,
      (∀ e ∈ l, registryNames.contains e.funcName = true →
        ("_" ++ e.funcName).data <:+: v.property.data) →
      l.foldl subStep v = v := by
  induction l with
  | nil => intro v _; rfl
  | cons e rest ih =>
    intro v h
    have hstep : subStep v e = v := by
      unfold subStep
      by_cases h1 : registryNames.contains e.funcName = true
      · rw [if_pos h1]
        have hinf := h e (List.mem_cons_self e rest) h1
        have hc : containsSub v.property ("_" ++ e.funcName) = true := decide_eq_true hinf
        rw [if_pos hc]
      · rw [if_neg h1]
    rw [List.foldl_cons, hstep]
    exact ih v (fun e' he' hreg => h e' (List.mem_cons_of_mem _ he') hreg)

/-- Rewriting a rule's spec twice with the same parsed entities equals
rewriting it once. -/
theorem rewriteSpec_idem (ents : List Entity) (v : ValidationSpec) :
    rewriteSpec ents (rewriteSpec ents v) = rewriteSpec ents v := by
  rw [rewriteSpec_eq_foldSub, rewriteSpec_eq_foldSub]
  exact foldSub_pass2_id _ _ (fun e he hreg => foldSub_all_infix _ v e he hreg)

/-- Unfolding equation for one step of the rewriting loop. -/
theorem rewritePass_cons (parse : String → Except String (List Entity))
    (v : ValidationSpec) (rest : List ValidationSpec) :
    rewritePass parse (v :: rest) =
      match parse v.rule with
      | .error e => (v :: (rewritePass parse rest).1,
                     pupilErrMsg e :: (rewritePass parse rest).2)
      | .ok ents => (rewriteSpec ents v :: (rewritePass parse rest).1,
                     (rewritePass parse rest).2) := rfl

/-- A second rewriting pass returns the first pass's spec list
unchanged. -/
theorem rewritePass_idem (parse : String → Except String (List Entity)) :
    ∀ vs : List ValidationSpec,
      (rewritePass parse (rewritePass parse vs).1).1 = (rewritePass parse vs).1 := by
  intro vs
  induction vs with
  | nil => rfl
  | cons v rest ih =>
    cases h : parse v.rule with
    | error e =>
      have h1 : rewritePass parse (v :: rest) =
          (v :: (rewritePass parse rest).1,
           pupilErrMsg e :: (rewritePass parse rest).2) := by
        rw [rewritePass_cons, h]
      rw [h1]
      have h2 : rewritePass parse (v :: (rewritePass parse rest).1) =
          (v :: (rewritePass parse (rewritePass parse rest).1).1,
           pupilErrMsg e :: (rewritePass parse (rewritePass parse rest).1).2) := by
        rw [rewritePass_cons, h]
      rw [h2]
      simp [ih]
    | ok ents =>
      have h1 : rewritePass parse (v :: rest) =
          (rewriteSpec ents v :: (rewritePass parse rest).1,
           (rewritePass parse rest).2) := by
        rw [rewritePass_cons, h]
      rw [h1]
      have hrule : (rewriteSpec ents v).rule = v.rule := rewriteSpec_rule ents v
      have h2 : rewritePass parse (rewriteSpec ents v :: (rewritePass parse rest).1) =
          (rewriteSpec ents (rewriteSpec ents v) ::
             (rewritePass parse (rewritePass parse rest).1).1,
           (rewritePass parse (rewritePass parse rest).1).2) := by
        rw [rewritePass_cons, hrule, h]
      rw [h2]
      simp [ih, rewriteSpec_idem]

/-- Claim C5: the Rule Rewriter is idempotent -- a second rewriting
pass over the already rewritten list produces exactly the same
property names (no doubled '_' ++ funcName suffix). -/
theorem rewriter_idempotent (parse : String → Except String (List Entity))
    (vs : List ValidationSpec) :
    ((rewritePass parse (rewritePass parse vs).1).1).map (fun v => v.property) =
      ((rewritePass parse vs).1).map (fun v => v.property) := by
  rw [rewritePass_idem]

/-- When no per-key error is injected, the parallel map returns the
row lists in request order. -/
theorem runQueries_ok (ds : Datastore) :
    ∀ keys : List String, (∀ k ∈ keys, ds.queryErr k = none) →
      runQueries ds keys = .ok (keys.map ds.queryRows) := by
  intro keys
  induction keys with
  | nil => intro _; rfl
  | cons k rest ih =>
    intro h
    unfold runQueries
    rw [h k (List.mem_cons_self k rest), ih (fun k' hk' => h k' (List.mem_cons_of_mem _ hk'))]
    rfl

/-- Unfolding of the shared existence check for a non-empty field
list. -/
theorem existsCheck_nonempty (ds : Datastore) (attrs : AttrMap) (fields : List String)
    (addF : Option String) (sd : Option Int) (hne : fields.isEmpty = false) :
    existsCheck ds attrs fields addF sd =
      (fields.map (attrKey attrs) ++
         (match addF with | some f => [f.toLower] | none => []),
       match runQueries ds (fields.map (attrKey attrs) ++
           (match addF with | some f => [f.toLower] | none => [])) with
       | .error e => .error e
       | .ok responses =>
         if ((getIntersection responses).filter (fun id => id != attrs.docId)).isEmpty
         then .ok false
         else
           match ds.allDocsErr with
           | some e => .error e
           | none =>
             .ok (((getIntersection responses).filter (fun id => id != attrs.docId)).any
               (fun id =>
                 (ds.getDoc id).errors.isEmpty &&
                   (match sd with
                    | none => true
                    | some x => decide (x ≤ (ds.getDoc id).reported_date))))) := by
  unfold existsCheck
  rw [if_neg (by rw [hne]; exact Bool.false_ne_true)]

/-- The result boolean of the existence check under a well-behaved
datastore: some intersected candidate other than the document itself
is error-free and inside the window. -/
theorem existsCheck_ok_eq (ds : Datastore) (attrs : AttrMap) (fields : List String)
    (sd : Option Int) (hne : fields ≠ [])
    (hq : ∀ f ∈ fields, ds.queryErr (attrKey attrs f) = none)
    (had : ds.allDocsErr = none) :
    (existsCheck ds attrs fields none sd).2 =
      .ok (((getIntersection (fields.map (fun f => ds.queryRows (attrKey attrs f)))).filter
          (fun id => id != attrs.docId)).any (fun id =>
            (ds.getDoc id).errors.isEmpty &&
              (match sd with
               | none => true
               | some x => decide (x ≤ (ds.getDoc id).reported_date)))) := by
  have hq2 : ∀ k ∈ fields.map (attrKey attrs), ds.queryErr k = none := by
    intro k hk
    obtain ⟨f, hf, rfl⟩ := List.mem_map.mp hk
    exact hq f hf
  have hrq : runQueries ds (fields.map (attrKey attrs)) =
      .ok (fields.map (fun f => ds.queryRows (attrKey attrs f))) := by
    rw [runQueries_ok ds _ hq2, List.map_map]
    rfl
  rw [existsCheck_nonempty ds attrs fields none sd (List.isEmpty_eq_false.mpr hne)]
  simp only [List.append_nil]
  rw [hrq]
  simp only
  by_cases hids : ((getIntersection (fields.map fun f => ds.queryRows (attrKey attrs f))).filter
      (fun id => id != attrs.docId)).isEmpty = true
  · rw [if_pos hids, List.isEmpty_iff.mp hids]
    simp
  · rw [if_neg hids, had]

/-- Excluding the document's own id and requiring a property of every
survivor is the same as requiring, for every intersected candidate,
own id or the property. -/
theorem forall_filter_ne_iff (inter : List String) (own : String) (P : String → Prop) :
    (∀ id ∈ inter.filter (fun id => id != own), P id) ↔
      (∀ id ∈ inter, id = own ∨ P id) := by
  constructor
  · intro h id hid
    by_cases he : id = own
    · exact Or.inl he
    · refine Or.inr (h id ?_)
      rw [List.mem_filter]
      exact ⟨hid, bne_iff_ne.mpr he⟩
  · intro h id hid
    rw [List.mem_filter] at hid
    obtain ⟨h1, h2⟩ := hid
    rcases h id h1 with he | hp
    · rw [bne_iff_ne] at h2
      exact absurd he h2
    · exact hp

/-- Claim C7: under a well-behaved datastore, unique returns true iff
every intersected candidate is the document's own id or carries a
non-empty errors list; uniqueWithin additionally discounts candidates
reported before now minus the parsed duration (its last argument), so
a duplicate outside the window still yields true. -/
theorem unique_characterization :
    (∀ (ds : Datastore) (attrs : AttrMap) (v : ValidationSpec),
      v.funcArgs ≠ [] →
      (∀ f ∈ v.funcArgs, ds.queryErr (attrKey attrs f) = none) →
      ds.allDocsErr = none →
      ((uniqueVal ds attrs v).2 = .ok true ↔
        ∀ id ∈ getIntersection (v.funcArgs.map (fun f => ds.queryRows (attrKey attrs f))),
          id = attrs.docId ∨ (ds.getDoc id).errors ≠ [])) ∧
    (∀ (env : Env) (attrs : AttrMap) (v : ValidationSpec) (fs : List String) (d : String),
      v.funcArgs = fs ++ [d] → fs ≠ [] →
      (∀ f ∈ fs, env.ds.queryErr (attrKey attrs f) = none) →
      env.ds.allDocsErr = none →
      ((uniqueWithinVal env attrs v).2 = .ok true ↔
        ∀ id ∈ getIntersection (fs.map (fun f => env.ds.queryRows (attrKey attrs f))),
          id = attrs.docId ∨ (env.ds.getDoc id).errors ≠ [] ∨
            (env.ds.getDoc id).reported_date < env.now - env.parseDur d)) := by
  constructor
  · intro ds attrs v hne hq had
    have hex := existsCheck_ok_eq ds attrs v.funcArgs none hne hq had
    have hu : (uniqueVal ds attrs v).2 =
        ((existsCheck ds attrs v.funcArgs none none).2).map (fun b => !b) := rfl
    rw [hu, hex]
    simp only [Except.map, Except.ok.injEq, Bool.not_eq_true']
    rw [List.any_eq_false]
    rw [forall_filter_ne_iff
      (getIntersection (v.funcArgs.map (fun f => ds.queryRows (attrKey attrs f))))
      attrs.docId
      (fun id => ¬(((ds.getDoc id).errors.isEmpty &&
        (match (none : Option Int) with
         | none => true
         | some x => decide (x ≤ (ds.getDoc id).reported_date))) = true))]
    have hP : ∀ id : String,
        (¬(((ds.getDoc id).errors.isEmpty &&
          (match (none : Option Int) with
           | none => true
           | some x => decide (x ≤ (ds.getDoc id).reported_date))) = true)) ↔
        (ds.getDoc id).errors ≠ [] := by
      intro id
      simp [List.isEmpty_iff]
    exact forall₂_congr (fun id _ => or_congr_right (hP id))
  · intro env attrs v fs d hargs hfs hq had
    have harg1 : v.funcArgs.dropLast = fs := by rw [hargs]; exact List.dropLast_concat
    have harg2 : v.funcArgs.getLastD "" = d := by rw [hargs]; exact List.getLastD_concat _ _ _
    have hu : (uniqueWithinVal env attrs v).2 =
        ((existsCheck env.ds attrs v.funcArgs.dropLast none
          (some (env.now - env.parseDur (v.funcArgs.getLastD "")))).2).map (fun b => !b) := rfl
    rw [hu, harg1, harg2,
      existsCheck_ok_eq env.ds attrs fs (some (env.now - env.parseDur d)) hfs hq had]
    simp only [Except.map, Except.ok.injEq, Bool.not_eq_true']
    rw [List.any_eq_false]
    rw [forall_filter_ne_iff
      (getIntersection (fs.map (fun f => env.ds.queryRows (attrKey attrs f))))
      attrs.docId
      (fun id => ¬(((env.ds.getDoc id).errors.isEmpty &&
        (match (some (env.now - env.parseDur d) : Option Int) with
         | none => true
         | some x => decide (x ≤ (env.ds.getDoc id).reported_date))) = true))]
    have hP : ∀ id : String,
        (¬(((env.ds.getDoc id).errors.isEmpty &&
          (match (some (env.now - env.parseDur d) : Option Int) with
           | none => true
           | some x => decide (x ≤ (env.ds.getDoc id).reported_date))) = true)) ↔
        ((env.ds.getDoc id).errors ≠ [] ∨
          (env.ds.getDoc id).reported_date < env.now - env.parseDur d) := by
      intro id
      simp only [Bool.and_eq_true, decide_eq_true_eq, List.isEmpty_iff, not_and_or, not_le]
    exact forall₂_congr (fun id _ => or_congr_right (hP id))

/-- A datastore holding one clean duplicate (reported at 100), one
errored duplicate, and the document itself under the key
patient_id:x. -/
def dsDup : Datastore :=
  { queryRows := fun k => if k == "patient_id:x" then ["self", "other", "errdoc"] else [],
    queryErr := fun _ => none,
    allDocsErr := none,
    getDoc := fun id =>
      if id == "other" then { errors := [], reported_date := 100 }
      else if id == "errdoc" then { errors := ["e"], reported_date := 100 } else {} }

/-- The document under validation for the uniqueness witnesses. -/
def attrsDup : AttrMap := { docId := "self", fields := [("patient_id", "X")] }

/-- Environment over dsDup at time 1000 with a 700-ms window for
"7 days" (abstract duration units). -/
def envDup : Env :=
  { ds := dsDup, now := 1000, currentYear := 2026,
    parseDur := fun s => if s == "7 days" then 700 else 0 }

/-- Witness for C7: both characterizations instantiated over dsDup. -/
theorem unique_characterization_witness :
    ((uniqueVal dsDup attrsDup
        { property := "patient_id_unique", rule := "unique(patient_id)",
          funcName := some "unique", funcArgs := ["patient_id"] }).2 = .ok true ↔
      ∀ id ∈ getIntersection
          (["patient_id"].map (fun f => dsDup.queryRows (attrKey attrsDup f))),
        id = attrsDup.docId ∨ (dsDup.getDoc id).errors ≠ []) ∧
    ((uniqueWithinVal envDup attrsDup
        { property := "patient_id_uniqueWithin", rule := "uniqueWithin(patient_id,7 days)",
          funcName := some "uniqueWithin", funcArgs := ["patient_id", "7 days"] }).2
        = .ok true ↔
      ∀ id ∈ getIntersection
          (["patient_id"].map (fun f => envDup.ds.queryRows (attrKey attrsDup f))),
        id = attrsDup.docId ∨ (envDup.ds.getDoc id).errors ≠ [] ∨
          (envDup.ds.getDoc id).reported_date < envDup.now - envDup.parseDur "7 days") :=
  ⟨unique_characterization.1 dsDup attrsDup _ (by decide)
      (fun f _ => rfl) rfl,
   unique_characterization.2 envDup attrsDup _ ["patient_id"] "7 days" rfl (by decide)
      (fun f _ => rfl) rfl⟩

/-- Claim C8: isISOWeek never reports an error; it returns true iff the
designated week field holds a 1-2 digit string whose numeric value lies
between 1 and the ISO week count of the designated year (a 4-digit
string) or of the current year (whose decimal form the 4-digit test is
applied to); an absent week field or named year field gives false. -/
theorem isoWeek_characterization (cy : Nat) (attrs : AttrMap) (v : ValidationSpec) :
    (∃ b, isoWeekVal cy attrs v = Except.ok b) ∧
    (isoWeekVal cy attrs v = Except.ok true ↔
      (match yearFieldOf v with
       | some yf => ∃ w y, attrs.get (weekFieldOf v) = some w ∧ attrs.get yf = some y ∧
           reDigits12 w = true ∧ reDigits4 y = true ∧
           1 ≤ digitsToNat w ∧ digitsToNat w ≤ isoWeeksInYear (digitsToNat y)
       | none => ∃ w, attrs.get (weekFieldOf v) = some w ∧
           reDigits12 w = true ∧ reDigits4 (toString cy) = true ∧
           1 ≤ digitsToNat w ∧ digitsToNat w ≤ isoWeeksInYear cy)) ∧
    ((attrs.get (weekFieldOf v) = none ∨
        (∃ yf, yearFieldOf v = some yf ∧ attrs.get yf = none)) →
      isoWeekVal cy attrs v = Except.ok false) := by
  cases hy : yearFieldOf v with
  | none =>
    cases hw : attrs.get (weekFieldOf v) with
    | none =>
      have hval : isoWeekVal cy attrs v = .ok false := by
        unfold isoWeekVal
        rw [hy, hw]
        rfl
      refine ⟨⟨false, hval⟩, ?_, fun _ => hval⟩
      rw [hval]
      simp
    | some w =>
      have hval : isoWeekVal cy attrs v =
          .ok (reDigits12 w && reDigits4 (toString cy) &&
            decide (1 ≤ digitsToNat w) && decide (digitsToNat w ≤ isoWeeksInYear cy)) := by
        unfold isoWeekVal
        rw [hy, hw]
        rfl
      refine ⟨⟨_, hval⟩, ?_, ?_⟩
      · rw [hval]
        simp only [Except.ok.injEq, Bool.and_eq_true, decide_eq_true_eq]
        constructor
        · rintro ⟨⟨⟨h1, h2⟩, h3⟩, h4⟩
          exact ⟨w, rfl, h1, h2, h3, h4⟩
        · rintro ⟨w', hw', h1, h2, h3, h4⟩
          obtain rfl := Option.some.inj hw'
          exact ⟨⟨⟨h1, h2⟩, h3⟩, h4⟩
      · rintro (h | ⟨yf, hyf, _⟩)
        · exact Option.noConfusion h
        · exact Option.noConfusion hyf
  | some yf =>
    cases hyv : attrs.get yf with
    | none =>
      cases hw : attrs.get (weekFieldOf v) with
      | none =>
        have hval : isoWeekVal cy attrs v = .ok false := by
          unfold isoWeekVal
          rw [hy]
          simp [hw, hyv]
        refine ⟨⟨false, hval⟩, ?_, fun _ => hval⟩
        rw [hval]
        simp [hyv]
      | some w =>
        have hval : isoWeekVal cy attrs v = .ok false := by
          unfold isoWeekVal
          rw [hy]
          simp [hw, hyv]
        refine ⟨⟨false, hval⟩, ?_, fun _ => hval⟩
        rw [hval]
        simp [hyv]
    | some y =>
      cases hw : attrs.get (weekFieldOf v) with
      | none =>
        have hval : isoWeekVal cy attrs v = .ok false := by
          unfold isoWeekVal
          rw [hy]
          simp [hw, hyv]
        refine ⟨⟨false, hval⟩, ?_, ?_⟩
        · rw [hval]
          simp
        · rintro (h | ⟨yf', hyf', hyv'⟩)
          · exact hval
          · exact hval
      | some w =>
        have hval : isoWeekVal cy attrs v =
            .ok (reDigits12 w && reDigits4 y &&
              decide (1 ≤ digitsToNat w) &&
              decide (digitsToNat w ≤ isoWeeksInYear (digitsToNat y))) := by
          unfold isoWeekVal
          rw [hy]
          simp [hw, hyv]
        refine ⟨⟨_, hval⟩, ?_, ?_⟩
        · rw [hval]
          simp only [Except.ok.injEq, Bool.and_eq_true, decide_eq_true_eq]
          constructor
          · rintro ⟨⟨⟨h1, h2⟩, h3⟩, h4⟩
            exact ⟨w, y, rfl, hyv, h1, h2, h3, h4⟩
          · rintro ⟨w', y', hw', hy', h1, h2, h3, h4⟩
            obtain rfl := Option.some.inj hw'
            have hyy : some y = some y' := by rw [← hyv, hy']
            obtain rfl := Option.some.inj hyy
            exact ⟨⟨⟨h1, h2⟩, h3⟩, h4⟩
        · rintro (h | ⟨yf', hyf', hyv'⟩)
          · exact Option.noConfusion h
          · obtain rfl := Option.some.inj hyf'
            rw [hyv] at hyv'
            exact Option.noConfusion hyv'

/-- The isISOWeek spec used by the witness. -/
def spec8 : ValidationSpec :=
  { property := "week_isISOWeek", rule := "isISOWeek(week,year)",
    funcName := some "isISOWeek", funcArgs := ["week", "year"] }

/-- Document with week 53 of 2015 (a 53-ISO-week year). -/
def attrs2015 : AttrMap := { docId := "d8", fields := [("week", "53"), ("year", "2015")] }

/-- Document missing the designated week field. -/
def attrsNoWeek : AttrMap := { docId := "d8", fields := [("year", "2015")] }

/-- Witness for C8: week 53 of 2015 validates (2015 has 53 ISO weeks);
a document without the week field yields false with no error. -/
theorem isoWeek_characterization_witness :
    isoWeekVal 2026 attrs2015 spec8 = Except.ok true ∧
    isoWeekVal 2026 attrsNoWeek spec8 = Except.ok false :=
  ⟨(isoWeek_characterization 2026 attrs2015 spec8).2.1.mpr
      ⟨"53", "2015", rfl, rfl, by decide, by decide, by decide, by decide⟩,
   (isoWeek_characterization 2026 attrsNoWeek spec8).2.2 (Or.inl rfl)⟩
